import Mathlib

set_option linter.unusedSectionVars false

/-!
Verification of the `cpp-hft-straddle` market-data and strategy core.

This file gives a shallow embedding, in Lean 4, of the data structures and
operations of the repository that the specification talks about:

* `hft::data::CircularBuffer` (src/include/market_data.h, lines 149-199):
  the lock-free ring buffer, embedded as a sequential state machine.  The
  C++ atomics only order memory between one producer and one consumer; the
  sequential semantics of `push`/`pop`/`size`/`empty`/`full` are embedded
  verbatim (same index arithmetic, same guards).
* `hft::data::SymbolMapper` (src/include/market_data.h, lines 201-228):
  string to id table, embedded with an association list in place of
  `std::unordered_map` (only find and insert-at-key are used) and a
  `List String` in place of `std::vector<std::string>`.
* `hft::data::Price` (src/include/market_data.h, lines 47-59): fixed-point
  prices.  The arithmetic operators of the source route the integer result
  through IEEE-754 binary64 `double`; the embedding models binary64
  round-to-nearest-even exactly (for values in the normal range, which
  covers every value appearing here) over `ℚ`.
* `MarketTick::spread_pct` and friends (src/include/market_data.h,
  lines 61-92).
* Strategy / risk configuration defaults (`StraddleStrategy::Config`,
  `RiskManager::RiskLimits`) and, where the repository only declares an
  operation (`MarketDataAggregator::add_tick`,
  `RiskManager::can_open_position`, the `ENTRY_PENDING → ACTIVE` target
  computation), definitions modelled from the specification, each marked
  `Modelled from the spec:` in its doc comment.

Machine integers are embedded as `ℤ`/`ℕ`; `size_t` index arithmetic in the
ring buffer is `ℕ` with the explicit `% Size` of the source.
-/

namespace HftStraddle

/-! ## CircularBuffer (src/include/market_data.h, lines 149-199)

State of `CircularBuffer<T, Size>`: the backing `std::array<T, Size>` is a
list of length `Size` (well-formedness), `head_` and `tail_` are the two
`size_t` indices. -/

structure CircularBuffer (T : Type) (Size : ℕ) where
  buffer_ : List T
  head_ : ℕ
  tail_ : ℕ
  deriving Repr, DecidableEq

/-- A default-constructed `CircularBuffer<T, Size>`: default-initialized
backing array, `head_ = 0`, `tail_ = 0`. -/
def CircularBuffer.init (T : Type) [Inhabited T] (Size : ℕ) : CircularBuffer T Size :=
  ⟨List.replicate Size default, 0, 0⟩

/-- The post-state of a successful `push`: `buffer_[current_tail] = item`
and `tail_` advanced to `next_tail = (tail_ + 1) % Size`. -/
def CircularBuffer.pushState {T : Type} {Size : ℕ} (cb : CircularBuffer T Size) (item : T) :
    CircularBuffer T Size :=
  { cb with buffer_ := cb.buffer_.set cb.tail_ item, tail_ := (cb.tail_ + 1) % Size }

/-- `CircularBuffer::push` (lines 158-169): compute
`next_tail = (tail_ + 1) % Size`; if it equals `head_` report a full buffer
and change nothing, otherwise write `item` at index `tail_` (the current
tail) and advance `tail_`.  Returns the C++ `bool` together with the
post-state. -/
def CircularBuffer.push {T : Type} {Size : ℕ} (cb : CircularBuffer T Size) (item : T) :
    Bool × CircularBuffer T Size :=
  if (cb.tail_ + 1) % Size = cb.head_ then
    (false, cb)
  else
    (true, cb.pushState item)

/-- The post-state of a successful `pop`: `head_` advanced by one modulo
`Size`. -/
def CircularBuffer.popState {T : Type} {Size : ℕ} (cb : CircularBuffer T Size) :
    CircularBuffer T Size :=
  { cb with head_ := (cb.head_ + 1) % Size }

/-- `CircularBuffer::pop` (lines 172-182): if `head_ = tail_` the buffer is
empty and `pop` fails; otherwise read the item at `head_` and advance
`head_` by one modulo `Size`.  The C++ out-parameter and `bool` result are
an `Option`. -/
def CircularBuffer.pop {T : Type} [Inhabited T] {Size : ℕ} (cb : CircularBuffer T Size) :
    Option (T × CircularBuffer T Size) :=
  if cb.head_ = cb.tail_ then
    none
  else
    some (cb.buffer_.getD cb.head_ default, cb.popState)

/-- `CircularBuffer::size` (lines 184-188): `(t >= h) ? (t - h) : (Size - h + t)`. -/
def CircularBuffer.size {T : Type} {Size : ℕ} (cb : CircularBuffer T Size) : ℕ :=
  if cb.head_ ≤ cb.tail_ then cb.tail_ - cb.head_ else Size - cb.head_ + cb.tail_

/-- `CircularBuffer::full` (lines 194-198). -/
def CircularBuffer.full {T : Type} {Size : ℕ} (cb : CircularBuffer T Size) : Bool :=
  (cb.tail_ + 1) % Size = cb.head_

/-- `CircularBuffer::empty` (lines 190-192); named `isEmpty` to avoid the
clash with `Inhabited`-style constructors. -/
def CircularBuffer.isEmpty {T : Type} {Size : ℕ} (cb : CircularBuffer T Size) : Bool :=
  cb.head_ = cb.tail_

/-- Well-formedness of a buffer state: the backing array has the declared
length and both indices are in range (true of every state reachable from
`init`, since all index updates are taken `% Size`). -/
def CircularBuffer.WF {T : Type} {Size : ℕ} (cb : CircularBuffer T Size) : Prop :=
  cb.buffer_.length = Size ∧ cb.head_ < Size ∧ cb.tail_ < Size

instance {T : Type} {Size : ℕ} (cb : CircularBuffer T Size) : Decidable cb.WF := by
  unfold CircularBuffer.WF; infer_instance

/-- The abstract queue stored in the buffer: the `size` elements starting
at `head_`, read cyclically. -/
def CircularBuffer.contents {T : Type} [Inhabited T] {Size : ℕ} (cb : CircularBuffer T Size) :
    List T :=
  (List.range cb.size).map (fun i => cb.buffer_.getD ((cb.head_ + i) % Size) default)

/-- Pushing a whole list, left to right; the flag records whether every
push succeeded. -/
def CircularBuffer.pushSeq {T : Type} {Size : ℕ} (cb : CircularBuffer T Size) :
    List T → Bool × CircularBuffer T Size
  | [] => (true, cb)
  | x :: xs =>
    if (cb.push x).1 then (cb.push x).2.pushSeq xs else (false, (cb.push x).2)

/-- Popping `n` times, collecting the values returned (stopping early on an
empty buffer). -/
def CircularBuffer.popSeq {T : Type} [Inhabited T] {Size : ℕ} (cb : CircularBuffer T Size) :
    ℕ → List T × CircularBuffer T Size
  | 0 => ([], cb)
  | n + 1 =>
    match cb.pop with
    | none => ([], cb)
    | some p => (p.1 :: (p.2.popSeq n).1, (p.2.popSeq n).2)

/-! ## SymbolMapper (src/include/market_data.h, lines 201-228) -/

structure SymbolMapper where
  symbol_to_id_ : List (String × ℕ)
  id_to_symbol_ : List String
  next_id_ : ℕ
  deriving Repr, DecidableEq

/-- A default-constructed `SymbolMapper`: empty map, empty reverse table,
`next_id_ = 1`. -/
def SymbolMapper.init : SymbolMapper := ⟨[], [], 1⟩

/-- An exact fraction `num / den` with (by construction) `0 < den`. -/
structure Frac where
  num : ℤ
  den : ℤ
  deriving Repr, DecidableEq

def Frac.ofInt (n : ℤ) : Frac := ⟨n, 1⟩

def Frac.neg (q : Frac) : Frac := ⟨-q.num, q.den⟩

def Frac.add (a b : Frac) : Frac := ⟨a.num * b.den + b.num * a.den, a.den * b.den⟩

def Frac.sub (a b : Frac) : Frac := ⟨a.num * b.den - b.num * a.den, a.den * b.den⟩

/-- Division; keeps the denominator positive only for `0 < b`, which holds
at its one use site (`spread_pct` divides by a guarded-positive midpoint). -/
def Frac.div (a b : Frac) : Frac := ⟨a.num * b.den, a.den * b.num⟩

def Frac.mulInt (q : Frac) (c : ℤ) : Frac := ⟨q.num * c, q.den⟩

def Frac.divInt (q : Frac) (c : ℤ) : Frac := ⟨q.num, q.den * c⟩

def Frac.isZero (q : Frac) : Bool := q.num = 0

/-- `0 < q`, valid for positive denominators. -/
def Frac.isPos (q : Frac) : Bool := 0 < q.num

/-- `a < b`, valid for positive denominators. -/
def Frac.lt (a b : Frac) : Bool := a.num * b.den < b.num * a.den

/-- `a ≤ b`, valid for positive denominators. -/
def Frac.le (a b : Frac) : Bool := a.num * b.den ≤ b.num * a.den

/-- `⌊q⌋`, valid for positive denominators. -/
def Frac.floor (q : Frac) : ℤ := Int.fdiv q.num q.den

/-- `q * 2 ^ k` for an integer exponent `k`. -/
def Frac.mulPow2 (q : Frac) (k : ℤ) : Frac :=
  if 0 ≤ k then ⟨q.num * 2 ^ k.toNat, q.den⟩ else ⟨q.num, q.den * 2 ^ (-k).toNat⟩

/-- `static_cast<int64_t>` applied to an exact value: truncation toward
zero. -/
def Frac.trunc (q : Frac) : ℤ := if 0 ≤ q.num then q.floor else -q.neg.floor

/-- Round a fraction to an integer, round-to-nearest, ties to even. -/
def rne (x : Frac) : ℤ :=
  if (x.sub (Frac.ofInt x.floor)).lt ⟨1, 2⟩ then x.floor
  else if Frac.lt ⟨1, 2⟩ (x.sub (Frac.ofInt x.floor)) then x.floor + 1
  else if x.floor % 2 = 0 then x.floor else x.floor + 1

/-- Fuel-driven descent: halve until the value drops below `2`, counting
binades.  For `1 ≤ q` and enough fuel this returns `e` with
`2 ^ e ≤ q < 2 ^ (e + 1)`. -/
def scaleDown : ℕ → Frac → ℤ → ℤ
  | 0, _, e => e
  | fuel + 1, q, e => if q.lt (Frac.ofInt 2) then e else scaleDown fuel (q.divInt 2) (e + 1)

/-- Fuel-driven ascent: double until the value reaches `1`, counting
binades.  For `0 < q < 1` and enough fuel this returns `e` with
`2 ^ e ≤ q < 2 ^ (e + 1)`. -/
def scaleUp : ℕ → Frac → ℤ → ℤ
  | 0, _, e => e
  | fuel + 1, q, e => if (Frac.ofInt 1).le q then e else scaleUp fuel (q.mulInt 2) (e - 1)

/-- Binade (floor of the base-2 logarithm) of a positive fraction.  The
fuel `1200` covers the whole binary64 exponent range. -/
def floorLog2 (q : Frac) : ℤ :=
  if (Frac.ofInt 1).le q then scaleDown 1200 q 0 else scaleUp 1200 q 0

/-- Round a positive fraction to the nearest binary64 value: scale into
the binade `[2 ^ 52, 2 ^ 53)`, round to an integer significand (ties to
even), and scale back. -/
def fl64Pos (q : Frac) : Frac :=
  (Frac.ofInt (rne (q.mulPow2 (52 - floorLog2 q)))).mulPow2 (floorLog2 q - 52)

/-- Round an exact fraction to the nearest binary64 double (normal range;
round-to-nearest, ties to even). -/
def fl64 (q : Frac) : Frac :=
  if q.isZero then Frac.ofInt 0
  else if q.isPos then fl64Pos q
  else (fl64Pos q.neg).neg

/-! ## Price (src/include/market_data.h, lines 47-59)

A `Price` is its `int64_t value` field, in units of 1/10000 dollar. -/

/-- `Price(double price)` (line 52): `static_cast<int64_t>(price * 10000)`,
where `price * 10000` is a binary64 multiplication (exact product, then
one rounding). -/
def Price.ofDouble (price : Frac) : ℤ :=
  (fl64 (price.mulInt 10000)).trunc

/-- `Price::to_double` (line 54): `value / 10000.0` evaluated in binary64
(the `int64_t` is first converted to double, itself a rounding step). -/
def Price.toDouble (value : ℤ) : Frac :=
  fl64 ((fl64 (Frac.ofInt value)).divInt 10000)

/-- `Price::operator+` (line 55): the exact `int64_t` sum is converted to
`double`, divided by `10000.0` in binary64, and handed to the
`Price(double)` constructor. -/
def Price.addValue (a b : ℤ) : ℤ :=
  Price.ofDouble (fl64 ((fl64 (Frac.ofInt (a + b))).divInt 10000))

/-- `Price::operator-` (line 56), same shape as `operator+`. -/
def Price.subValue (a b : ℤ) : ℤ :=
  Price.ofDouble (fl64 ((fl64 (Frac.ofInt (a - b))).divInt 10000))

/-! ## MarketTick (src/include/market_data.h, lines 61-92)

Only the fields the verified operations read are carried (`bid` and `ask`
as `Price` values, plus the routing ids). -/

structure MarketTick where
  symbol_id : ℕ
  bid : ℤ
  ask : ℤ
  last : ℤ
  volume : ℕ
  deriving Repr, DecidableEq

/-- `MarketTick::midpoint` (lines 78-80):
`Price((bid.to_double() + ask.to_double()) / 2.0)`; the addition and the
division by `2.0` each round (the latter is numerically exact for normal
doubles). -/
def MarketTick.midpointValue (t : MarketTick) : ℤ :=
  Price.ofDouble (fl64 ((fl64 ((Price.toDouble t.bid).add (Price.toDouble t.ask))).divInt 2))

/-- `MarketTick::spread` (lines 83-85): `ask.to_double() - bid.to_double()`. -/
def MarketTick.spread (t : MarketTick) : Frac :=
  fl64 ((Price.toDouble t.ask).sub (Price.toDouble t.bid))

/-- `MarketTick::spread_pct` (lines 88-91):
`mid > 0 ? (spread() / mid) * 100.0 : 0.0` with
`mid = midpoint().to_double()`. -/
def MarketTick.spread_pct (t : MarketTick) : Frac :=
  if (Price.toDouble t.midpointValue).isPos then
    fl64 ((fl64 (t.spread.div (Price.toDouble t.midpointValue))).mulInt 100)
  else
    Frac.ofInt 0

/-! ## MarketDataAggregator (src/include/market_data.h, lines 230-251)

The class declares `add_tick` but the repository contains no definition of
it (nor of the other member functions); the aggregator state and `add_tick`
below are therefore modelled from the specification (§4.3). -/

/-- Modelled from the spec: per-symbol latest tick, bounded rolling
history with FIFO eviction, and the rejection counter (§4.3; the C++
members and method bodies of `MarketDataAggregator` beyond the
declarations are not in the repository sources). -/
structure MarketDataAggregator where
  latest_ : List (ℕ × MarketTick)
  history_ : List MarketTick
  rejected_ : ℕ
  window_ : ℕ
  deriving Repr, DecidableEq

/-- Replace (or add) the latest tick stored for a symbol id. -/
def updateLatest (latest : List (ℕ × MarketTick)) (id : ℕ) (t : MarketTick) :
    List (ℕ × MarketTick) :=
  match latest with
  | [] => [(id, t)]
  | (i, u) :: rest => if i = id then (id, t) :: rest else (i, u) :: updateLatest rest id t

/-- Modelled from the spec: tick validity (§3 and §8): a tick with
`ask <= bid`, `ask <= 0` or `bid <= 0` is invalid and must be rejected by
the aggregator. -/
def MarketTick.valid (t : MarketTick) : Prop :=
  t.bid < t.ask ∧ 0 < t.bid ∧ 0 < t.ask

instance (t : MarketTick) : Decidable t.valid := by
  unfold MarketTick.valid; infer_instance

/-- Modelled from the spec: `MarketDataAggregator::add_tick` (§4.3):
rejects invalid ticks as a no-op apart from the rejection counter;
otherwise overwrites the symbol's latest tick and appends to the history,
evicting the oldest entry when the window is full.  (Only declared in
src/include/market_data.h, line 238; no definition is in the repository
sources.) -/
def MarketDataAggregator.add_tick (agg : MarketDataAggregator) (t : MarketTick) :
    MarketDataAggregator :=
  if t.valid then
    { agg with
      latest_ := updateLatest agg.latest_ t.symbol_id t,
      history_ :=
        if agg.window_ ≤ agg.history_.length then agg.history_.drop 1 ++ [t]
        else agg.history_ ++ [t] }
  else
    { agg with rejected_ := agg.rejected_ + 1 }

/-! ## StraddleStrategy configuration and entry targets -/

/-- `StraddleStrategy::Config` (strategy header, lines 176-200); the
`double` fields are carried as exact rationals. -/
structure Config where
  otm_offset_pct : ℚ
  max_premium_pct : ℚ
  profit_target_pct : ℚ
  stop_loss_pct : ℚ
  max_hold_days : ℕ
  min_implied_vol : ℚ
  max_implied_vol : ℚ
  min_time_to_expiry : ℚ
  max_time_to_expiry : ℚ
  max_positions : ℕ
  position_size_pct : ℚ
  deriving Repr, DecidableEq

/-- The default `Config` (strategy header, lines 189-199). -/
def defaultConfig : Config :=
  { otm_offset_pct := 2 / 100
    max_premium_pct := 5 / 100
    profit_target_pct := 15 / 100
    stop_loss_pct := 25 / 100
    max_hold_days := 30
    min_implied_vol := 15 / 100
    max_implied_vol := 1
    min_time_to_expiry := 7
    max_time_to_expiry := 60
    max_positions := 10
    position_size_pct := 2 / 100 }

/-- Modelled from the spec: the target computation of the
`ENTRY_PENDING → ACTIVE` transition (§4.5):
`profit_target = entry_premium * (1 + profit_target_pct)` and
`stop_loss = entry_premium * (1 - stop_loss_pct)`.  The body of
`StraddleStrategy::create_straddle_position` / `update_position` is not in
the repository sources (the strategy header only declares them); the
configured percentages come from the in-source `Config` defaults. -/
def computeTargets (entry_premium : ℚ) (cfg : Config) : ℚ × ℚ :=
  (entry_premium * (1 + cfg.profit_target_pct),
   entry_premium * (1 - cfg.stop_loss_pct))

/-! ## RiskManager (strategy header, lines 275-320) -/

/-- `RiskManager::RiskLimits` (strategy header, lines 277-293). -/
structure RiskLimits where
  max_portfolio_risk : ℚ
  max_position_size : ℚ
  max_correlation : ℚ
  max_sector_exposure : ℚ
  max_positions : ℕ
  max_daily_loss : ℚ
  max_monthly_loss : ℚ
  deriving Repr, DecidableEq

/-- The default `RiskLimits` (strategy header, lines 286-292). -/
def defaultRiskLimits : RiskLimits :=
  { max_portfolio_risk := 10 / 100
    max_position_size := 5 / 100
    max_correlation := 70 / 100
    max_sector_exposure := 30 / 100
    max_positions := 20
    max_daily_loss := 2 / 100
    max_monthly_loss := 5 / 100 }

/-- Modelled from the spec: `RiskManager::can_open_position` (§4.6):
rejects when the position notional exceeds the `max_position_size`
fraction of portfolio value, when aggregate portfolio risk exceeds
`max_portfolio_risk`, when the number of open positions would exceed
`max_positions`, or when the daily realized loss already exceeds
`max_daily_loss`.  (Only declared in the strategy header, line 304; no
definition is in the repository sources.) -/
def can_open_position (limits : RiskLimits) (portfolio_risk daily_loss : ℚ)
    (open_positions : ℕ) (notional portfolio_value : ℚ) : Bool :=
  decide (notional ≤ limits.max_position_size * portfolio_value ∧
          portfolio_risk ≤ limits.max_portfolio_risk ∧
          open_positions + 1 ≤ limits.max_positions ∧
          daily_loss ≤ limits.max_daily_loss)

/-! # Theorems -/

/-- `List.set` at one index leaves `getD` at any other index alone. -/
theorem getD_set_ne {α : Type} (l : List α) (i j : ℕ) (a d : α) (h : i ≠ j) :
    (l.set i a).getD j d = l.getD j d := by
  simp [List.getD_eq_getElem?_getD, List.getElem?_set_ne h]

/-- `List.set` at an in-range index is read back by `getD` there. -/
theorem getD_set_self {α : Type} (l : List α) (i : ℕ) (a d : α) (h : i < l.length) :
    (l.set i a).getD i d = a := by
  simp [List.getD_eq_getElem?_getD, List.getElem?_set_self, h]

section CircularBufferLemmas

variable {T : Type} [Inhabited T] {Size : ℕ}

theorem CircularBuffer.size_lt (cb : CircularBuffer T Size) (hwf : cb.WF) : cb.size < Size := by
  obtain ⟨-, hh, ht⟩ := hwf
  unfold CircularBuffer.size
  split <;> omega

theorem CircularBuffer.tail_eq (cb : CircularBuffer T Size) (hwf : cb.WF) :
    cb.tail_ = (cb.head_ + cb.size) % Size := by
  obtain ⟨-, hh, ht⟩ := hwf
  unfold CircularBuffer.size
  split
  · rw [Nat.add_sub_cancel' (by omega), Nat.mod_eq_of_lt ht]
  · have : cb.head_ + (Size - cb.head_ + cb.tail_) = Size + cb.tail_ := by omega
    rw [this, Nat.add_mod_left, Nat.mod_eq_of_lt ht]

/-- Indices `(h + i) % n` for `i < n` are pairwise distinct. -/
theorem CircularBuffer.mod_index_inj (n : ℕ) {h i j : ℕ} (hi : i < n) (hj : j < n)
    (hij : (h + i) % n = (h + j) % n) : i = j := by
  have : i % n = j % n := Nat.ModEq.add_left_cancel' h hij
  rwa [Nat.mod_eq_of_lt hi, Nat.mod_eq_of_lt hj] at this

theorem CircularBuffer.size_zero_iff (cb : CircularBuffer T Size) (hwf : cb.WF) :
    cb.size = 0 ↔ cb.head_ = cb.tail_ := by
  obtain ⟨-, hh, ht⟩ := hwf
  unfold CircularBuffer.size
  split <;> omega

/-- The size is recovered from the head index and the cyclic tail offset. -/
theorem CircularBuffer.size_formula (cb : CircularBuffer T Size) (s' : ℕ)
    (hh : cb.head_ < Size) (hs : s' < Size)
    (htail : cb.tail_ = (cb.head_ + s') % Size) : cb.size = s' := by
  unfold CircularBuffer.size
  rcases Nat.lt_or_ge (cb.head_ + s') Size with hlt | hge
  · rw [Nat.mod_eq_of_lt hlt] at htail
    split <;> omega
  · have h2 : cb.head_ + s' - Size < Size := by omega
    have : (cb.head_ + s') % Size = cb.head_ + s' - Size := by
      rw [Nat.mod_eq_sub_mod hge, Nat.mod_eq_of_lt h2]
    rw [this] at htail
    split <;> omega

theorem CircularBuffer.contents_length (cb : CircularBuffer T Size) :
    cb.contents.length = cb.size := by
  simp [CircularBuffer.contents]

/-- A successful `push` on a buffer with room appends to the abstract
queue. -/
theorem CircularBuffer.push_spec (cb : CircularBuffer T Size) (x : T) (hwf : cb.WF)
    (hroom : cb.size + 1 < Size) :
    (cb.push x).1 = true ∧ (cb.push x).2.WF ∧ (cb.push x).2.size = cb.size + 1 ∧
    (cb.push x).2.contents = cb.contents ++ [x] := by
  obtain ⟨hlen, hh, ht⟩ := hwf
  have hSize : 0 < Size := by omega
  have htail := cb.tail_eq ⟨hlen, hh, ht⟩
  have hnotfull : ¬((cb.tail_ + 1) % Size = cb.head_) := by
    intro hfull
    have h1 : (cb.head_ + (cb.size + 1)) % Size = (cb.head_ + 0) % Size :=
      calc (cb.head_ + (cb.size + 1)) % Size
          = ((cb.head_ + cb.size) % Size + 1) % Size := by
            rw [Nat.mod_add_mod, Nat.add_assoc]
        _ = (cb.tail_ + 1) % Size := by rw [← htail]
        _ = cb.head_ := hfull
        _ = (cb.head_ + 0) % Size := by rw [Nat.add_zero, Nat.mod_eq_of_lt hh]
    exact absurd (CircularBuffer.mod_index_inj Size hroom hSize h1) (by omega)
  have hpush : cb.push x = (true, cb.pushState x) := by
    unfold CircularBuffer.push
    rw [if_neg hnotfull]
  have hwf2 : (cb.pushState x).WF := by
    refine ⟨?_, hh, Nat.mod_lt _ hSize⟩
    show (cb.buffer_.set cb.tail_ x).length = Size
    rw [List.length_set, hlen]
  have htail2 : (cb.pushState x).tail_ = ((cb.pushState x).head_ + (cb.size + 1)) % Size := by
    show (cb.tail_ + 1) % Size = (cb.head_ + (cb.size + 1)) % Size
    rw [htail, Nat.mod_add_mod, Nat.add_assoc]
  have hsz2 : (cb.pushState x).size = cb.size + 1 :=
    CircularBuffer.size_formula (cb.pushState x) (cb.size + 1) hh hroom htail2
  refine ⟨by rw [hpush], by rw [hpush]; exact hwf2, by rw [hpush]; exact hsz2, ?_⟩
  rw [hpush]
  show (cb.pushState x).contents = cb.contents ++ [x]
  unfold CircularBuffer.contents
  rw [hsz2, List.range_succ, List.map_append]
  congr 1
  · apply List.map_congr_left
    intro i hi
    have hi' : i < cb.size := List.mem_range.mp hi
    have hslt : cb.size < Size := by omega
    have hne : cb.tail_ ≠ ((cb.pushState x).head_ + i) % Size := by
      intro he
      rw [htail] at he
      have he' : (cb.head_ + cb.size) % Size = (cb.head_ + i) % Size := he
      have : cb.size = i :=
        CircularBuffer.mod_index_inj Size hslt (by omega) he'
      omega
    show (cb.buffer_.set cb.tail_ x).getD ((cb.head_ + i) % Size) default
        = cb.buffer_.getD ((cb.head_ + i) % Size) default
    exact getD_set_ne _ _ _ _ _ hne
  · show [(cb.buffer_.set cb.tail_ x).getD ((cb.head_ + cb.size) % Size) default] = [x]
    rw [← htail]
    rw [getD_set_self _ _ _ _ (by omega)]

/-- `pop` on an empty buffer fails. -/
theorem CircularBuffer.pop_none (cb : CircularBuffer T Size) (hwf : cb.WF)
    (hc : cb.contents = []) : cb.pop = none := by
  have hs : cb.size = 0 := by
    rw [← cb.contents_length, hc]
    rfl
  have hht := (cb.size_zero_iff hwf).mp hs
  unfold CircularBuffer.pop
  simp [hht]

/-- `pop` on a non-empty buffer returns the front of the abstract queue and
keeps the rest. -/
theorem CircularBuffer.pop_spec (cb : CircularBuffer T Size) (x : T) (c : List T) (hwf : cb.WF)
    (hc : cb.contents = x :: c) :
    cb.pop = some (x, cb.popState) ∧ cb.popState.WF ∧
    cb.popState.size = cb.size - 1 ∧ cb.popState.contents = c := by
  obtain ⟨hlen, hh, ht⟩ := hwf
  have hSize : 0 < Size := by omega
  have htail := cb.tail_eq ⟨hlen, hh, ht⟩
  have hslt := cb.size_lt ⟨hlen, hh, ht⟩
  have hs : cb.size = c.length + 1 := by
    rw [← cb.contents_length, hc]
    rfl
  have hne : ¬(cb.head_ = cb.tail_) := by
    intro he
    have : cb.size = 0 := (cb.size_zero_iff ⟨hlen, hh, ht⟩).mpr he
    omega
  unfold CircularBuffer.contents at hc
  rw [hs, List.range_succ_eq_map, List.map_cons, List.map_map, List.cons.injEq] at hc
  obtain ⟨hx, hcc⟩ := hc
  have hwf2 : cb.popState.WF := ⟨hlen, Nat.mod_lt _ hSize, ht⟩
  have htail2 : cb.popState.tail_ = (cb.popState.head_ + c.length) % Size := by
    show cb.tail_ = ((cb.head_ + 1) % Size + c.length) % Size
    rw [Nat.mod_add_mod, htail, hs]
    congr 1
    omega
  have hsz2 : cb.popState.size = c.length :=
    CircularBuffer.size_formula cb.popState c.length (Nat.mod_lt _ hSize) (by omega) htail2
  refine ⟨?_, hwf2, by omega, ?_⟩
  · unfold CircularBuffer.pop
    rw [if_neg hne]
    have hval : cb.buffer_.getD cb.head_ default = x := by
      rw [← hx]
      congr 1
      rw [Nat.add_zero, Nat.mod_eq_of_lt hh]
    rw [hval]
  · unfold CircularBuffer.contents
    rw [hsz2]
    conv_rhs => rw [← hcc]
    apply List.map_congr_left
    intro i hi
    show cb.buffer_.getD ((cb.popState.head_ + i) % Size) default
        = cb.buffer_.getD ((cb.head_ + Nat.succ i) % Size) default
    congr 1
    show ((cb.head_ + 1) % Size + i) % Size = (cb.head_ + Nat.succ i) % Size
    rw [Nat.mod_add_mod]
    congr 1
    omega

/-- Pushing a list into a buffer with enough room succeeds and appends it
to the abstract queue. -/
theorem CircularBuffer.pushSeq_spec (l : List T) : ∀ cb : CircularBuffer T Size, cb.WF →
    cb.size + l.length < Size →
    (cb.pushSeq l).1 = true ∧ (cb.pushSeq l).2.WF ∧
    (cb.pushSeq l).2.size = cb.size + l.length ∧
    (cb.pushSeq l).2.contents = cb.contents ++ l := by
  induction l with
  | nil =>
    intro cb hwf _
    exact ⟨rfl, hwf, by simp [CircularBuffer.pushSeq], by simp [CircularBuffer.pushSeq]⟩
  | cons x xs ih =>
    intro cb hwf hroom
    rw [List.length_cons] at hroom
    obtain ⟨h1, hwf1, hsz1, hc1⟩ := cb.push_spec x hwf (by omega)
    obtain ⟨g1, gwf, gsz, gc⟩ := ih (cb.push x).2 hwf1 (by rw [hsz1]; omega)
    unfold CircularBuffer.pushSeq
    rw [h1, if_pos rfl]
    refine ⟨g1, gwf, by rw [gsz, hsz1, List.length_cons]; omega, ?_⟩
    rw [gc, hc1, List.append_assoc, List.singleton_append]

/-- Popping as many times as the queue is long returns the whole queue. -/
theorem CircularBuffer.popSeq_spec (l : List T) : ∀ cb : CircularBuffer T Size, cb.WF →
    cb.contents = l →
    (cb.popSeq l.length).1 = l ∧ (cb.popSeq l.length).2.WF ∧
    (cb.popSeq l.length).2.contents = [] := by
  induction l with
  | nil =>
    intro cb hwf hc
    exact ⟨rfl, hwf, hc⟩
  | cons x xs ih =>
    intro cb hwf hc
    obtain ⟨hp, hwf2, -, hc2⟩ := cb.pop_spec x xs hwf hc
    obtain ⟨g1, gwf, gc⟩ := ih cb.popState hwf2 hc2
    rw [List.length_cons]
    unfold CircularBuffer.popSeq
    rw [hp]
    refine ⟨?_, gwf, gc⟩
    show x :: (cb.popState.popSeq xs.length).1 = x :: xs
    rw [g1]

end CircularBufferLemmas

/-! ## Circular buffer claims -/

/-- **C1**: for every sequence of pushes that fits in the buffer's
capacity (a `CircularBuffer<T, Size>` holds up to `Size - 1` values, see
C9), all pushes succeed, the subsequent pops return exactly the pushed
values in push order (FIFO), and the next pop after that fails. -/
theorem claim_C1_circular_buffer_fifo {T : Type} [Inhabited T] {Size : ℕ} (l : List T)
    (hl : l.length < Size) :
    ((CircularBuffer.init T Size).pushSeq l).1 = true ∧
    (((CircularBuffer.init T Size).pushSeq l).2.popSeq l.length).1 = l ∧
    (((CircularBuffer.init T Size).pushSeq l).2.popSeq l.length).2.pop = none := by
  have hSize : 0 < Size := by omega
  have hwf0 : (CircularBuffer.init T Size).WF :=
    ⟨List.length_replicate Size default, hSize, hSize⟩
  have hsz0 : (CircularBuffer.init T Size).size = 0 := by
    simp [CircularBuffer.init, CircularBuffer.size]
  have hc0 : (CircularBuffer.init T Size).contents = [] := by
    simp [CircularBuffer.contents, hsz0]
  obtain ⟨h1, hwf1, hsz1, hc1⟩ :=
    CircularBuffer.pushSeq_spec l (CircularBuffer.init T Size) hwf0 (by omega)
  obtain ⟨h2, hwf2, hc2⟩ :=
    CircularBuffer.popSeq_spec l _ hwf1 (by rw [hc1, hc0, List.nil_append])
  exact ⟨h1, h2, CircularBuffer.pop_none _ hwf2 hc2⟩

/-- Witness for C1 at a concrete input: three pushes into a
`CircularBuffer<ℕ, 4>`. -/
theorem claim_C1_circular_buffer_fifo_witness :
    ([10, 20, 30] : List ℕ).length < 4 ∧
    (((CircularBuffer.init ℕ 4).pushSeq [10, 20, 30]).1 = true ∧
     (((CircularBuffer.init ℕ 4).pushSeq [10, 20, 30]).2.popSeq
       ([10, 20, 30] : List ℕ).length).1 = [10, 20, 30] ∧
     (((CircularBuffer.init ℕ 4).pushSeq [10, 20, 30]).2.popSeq
       ([10, 20, 30] : List ℕ).length).2.pop = none) :=
  ⟨by decide, claim_C1_circular_buffer_fifo [10, 20, 30] (by decide)⟩

/-- **C2**: pushing into a full `CircularBuffer` returns `false` and
leaves the state (backing array and both indices) unchanged, so any
subsequent sequence of pops returns exactly what it would have returned
without the failed push. -/
theorem claim_C2_push_full_unchanged {T : Type} [Inhabited T] {Size : ℕ}
    (cb : CircularBuffer T Size) (x : T) (n : ℕ) (hfull : cb.full = true) :
    cb.push x = (false, cb) ∧ (cb.push x).2.popSeq n = cb.popSeq n := by
  have hcond : (cb.tail_ + 1) % Size = cb.head_ := by
    simpa [CircularBuffer.full] using hfull
  have hp : cb.push x = (false, cb) := by
    unfold CircularBuffer.push
    rw [if_pos hcond]
  exact ⟨hp, by rw [hp]⟩

/-- Witness for C2 at a concrete input: a full `CircularBuffer<ℕ, 3>`
(indices `head_ = 0`, `tail_ = 2`). -/
theorem claim_C2_push_full_unchanged_witness :
    (CircularBuffer.mk [1, 2, 0] 0 2 : CircularBuffer ℕ 3).full = true ∧
    ((CircularBuffer.mk [1, 2, 0] 0 2 : CircularBuffer ℕ 3).push 9 =
      (false, CircularBuffer.mk [1, 2, 0] 0 2) ∧
     ((CircularBuffer.mk [1, 2, 0] 0 2 : CircularBuffer ℕ 3).push 9).2.popSeq 2 =
      (CircularBuffer.mk [1, 2, 0] 0 2 : CircularBuffer ℕ 3).popSeq 2) :=
  ⟨by decide, claim_C2_push_full_unchanged (CircularBuffer.mk [1, 2, 0] 0 2) 9 2 (by decide)⟩

/-- **C9** (implicit): a `CircularBuffer<T, Size>` never holds more than
`Size - 1` elements: `size()` is always strictly below `Size` on
well-formed states, `push` fails exactly when `(tail_ + 1) % Size`
equals `head_` (one slot is permanently unusable), and well-formedness
and the bound are preserved by every push and pop. -/
theorem claim_C9_capacity_bound {T : Type} [Inhabited T] {Size : ℕ}
    (cb : CircularBuffer T Size) (x : T) (hwf : cb.WF) :
    cb.size < Size ∧
    ((cb.push x).1 = false ↔ (cb.tail_ + 1) % Size = cb.head_) ∧
    (cb.push x).2.WF ∧ (cb.push x).2.size < Size ∧
    Option.elim cb.pop True (fun p => p.2.WF ∧ p.2.size < Size) := by
  obtain ⟨hlen, hh, ht⟩ := hwf
  have hSize : 0 < Size := by omega
  have hpushwf : (cb.push x).2.WF := by
    unfold CircularBuffer.push
    split
    · exact ⟨hlen, hh, ht⟩
    · refine ⟨?_, hh, Nat.mod_lt _ hSize⟩
      show (cb.buffer_.set cb.tail_ x).length = Size
      rw [List.length_set]
      exact hlen
  refine ⟨CircularBuffer.size_lt cb ⟨hlen, hh, ht⟩, ?_, hpushwf,
    CircularBuffer.size_lt _ hpushwf, ?_⟩
  · unfold CircularBuffer.push
    split
    · simp_all
    · simp_all
  · unfold CircularBuffer.pop
    split
    · exact trivial
    · have hwf' : cb.popState.WF := ⟨hlen, Nat.mod_lt _ hSize, ht⟩
      exact ⟨hwf', CircularBuffer.size_lt _ hwf'⟩

/-- Witness for C9 at a concrete input: a `CircularBuffer<ℕ, 3>` holding
one element. -/
theorem claim_C9_capacity_bound_witness :
    (CircularBuffer.mk [5, 6, 7] 0 1 : CircularBuffer ℕ 3).WF ∧
    ((CircularBuffer.mk [5, 6, 7] 0 1 : CircularBuffer ℕ 3).size < 3 ∧
     (((CircularBuffer.mk [5, 6, 7] 0 1 : CircularBuffer ℕ 3).push 9).1 = false ↔
       ((CircularBuffer.mk [5, 6, 7] 0 1 : CircularBuffer ℕ 3).tail_ + 1) % 3 =
       (CircularBuffer.mk [5, 6, 7] 0 1 : CircularBuffer ℕ 3).head_) ∧
     ((CircularBuffer.mk [5, 6, 7] 0 1 : CircularBuffer ℕ 3).push 9).2.WF ∧
     ((CircularBuffer.mk [5, 6, 7] 0 1 : CircularBuffer ℕ 3).push 9).2.size < 3 ∧
     Option.elim (CircularBuffer.mk [5, 6, 7] 0 1 : CircularBuffer ℕ 3).pop True
       (fun p => p.2.WF ∧ p.2.size < 3)) :=
  ⟨by decide, claim_C9_capacity_bound (CircularBuffer.mk [5, 6, 7] 0 1) 9 (by decide)⟩

/-! ## SymbolMapper lemmas -/

/-- **C4**: the claim that `Price` addition and subtraction operate on the
scaled-by-10,000 integer representation with no precision loss from
intermediate floating-point conversion is violated by the code:
`operator+`/`operator-` route the exact `int64_t` result through
`double` (`(value + other.value) / 10000.0`, then `* 10000` and
truncation in the `Price(double)` constructor), and the binary64
round-trip loses basis points.  At `a.value = 2`, `b.value = 1` the sum
comes back as `2`, not `3`; at `a.value = 5`, `b.value = 2` the
difference comes back as `2`, not `3`.  (The spec and the code's own
comment "avoid floating point errors" state the intent the
implementation misses.) -/
theorem claim_C4_price_add_loses_precision :
    Price.addValue 2 1 = 2 ∧ Price.addValue 2 1 ≠ 2 + 1 ∧
    Price.subValue 5 2 = 2 ∧ Price.subValue 5 2 ≠ 5 - 2 := by decide

/-! ## Strategy targets (C5) -/

/-- **C5**: on the `ENTRY_PENDING → ACTIVE` transition the targets are
`profit_target = entry_premium * (1 + profit_target_pct)` and
`stop_loss = entry_premium * (1 - stop_loss_pct)`; the configured defaults
are `profit_target_pct = 0.15` and `stop_loss_pct = 0.25`, and an entry
premium of $11.00 yields `profit_target = $12.65` and
`stop_loss = $8.25`. -/
theorem claim_C5_entry_targets (p : ℚ) :
    computeTargets p defaultConfig
      = (p * (1 + defaultConfig.profit_target_pct),
         p * (1 - defaultConfig.stop_loss_pct)) ∧
    defaultConfig.profit_target_pct = 15 / 100 ∧
    defaultConfig.stop_loss_pct = 25 / 100 ∧
    computeTargets 11 defaultConfig = (1265 / 100, 825 / 100) := by
  refine ⟨rfl, rfl, rfl, ?_⟩
  unfold computeTargets defaultConfig
  norm_num

/-! ## Risk gate (C6) -/

/-- **C6**: `can_open_position` returns `false` whenever the position
notional exceeds the `max_position_size` fraction of portfolio value; with
the default limits (`max_position_size = 0.05`) and portfolio value
$100,000, a $6,000 notional is rejected and a $4,000 notional is accepted
when all other limits are satisfied. -/
theorem claim_C6_risk_gate_notional (limits : RiskLimits) (portfolio_risk daily_loss : ℚ)
    (open_positions : ℕ) (notional portfolio_value : ℚ)
    (h : limits.max_position_size * portfolio_value < notional) :
    can_open_position limits portfolio_risk daily_loss open_positions notional
      portfolio_value = false ∧
    can_open_position defaultRiskLimits 0 0 0 6000 100000 = false ∧
    can_open_position defaultRiskLimits 0 0 0 4000 100000 = true := by
  refine ⟨?_, ?_, ?_⟩
  · unfold can_open_position
    rw [decide_eq_false_iff_not]
    intro hc
    exact absurd hc.1 (not_le.mpr h)
  · unfold can_open_position
    rw [decide_eq_false_iff_not]
    intro hc
    have h1 := hc.1
    norm_num [defaultRiskLimits] at h1
  · unfold can_open_position
    rw [decide_eq_true_eq]
    refine ⟨?_, ?_, ?_, ?_⟩ <;> norm_num [defaultRiskLimits]

/-- Witness for C6 at the spec's concrete inputs ($6,000 versus the $5,000
cap, a $4,000 acceptance, other limits clear). -/
theorem claim_C6_risk_gate_notional_witness :
    defaultRiskLimits.max_position_size * 100000 < 6000 ∧
    (can_open_position defaultRiskLimits 0 0 0 6000 100000 = false ∧
     can_open_position defaultRiskLimits 0 0 0 6000 100000 = false ∧
     can_open_position defaultRiskLimits 0 0 0 4000 100000 = true) :=
  ⟨by norm_num [defaultRiskLimits],
   claim_C6_risk_gate_notional defaultRiskLimits 0 0 0 6000 100000
     (by norm_num [defaultRiskLimits])⟩

/-! ## Aggregator rejection (C7) -/

/-- **C7**: a `MarketTick` with `ask <= bid`, `ask <= 0` or `bid <= 0` is
rejected by `add_tick` as a no-op apart from the rejection counter: the
latest-tick table and the rolling history are unchanged and the counter
increments. -/
theorem claim_C7_add_tick_rejects_invalid (agg : MarketDataAggregator) (t : MarketTick)
    (h : t.ask ≤ t.bid ∨ t.ask ≤ 0 ∨ t.bid ≤ 0) :
    agg.add_tick t = { agg with rejected_ := agg.rejected_ + 1 } := by
  have hnv : ¬t.valid := by
    unfold MarketTick.valid
    intro ⟨h1, h2, h3⟩
    rcases h with h | h | h <;> omega
  unfold MarketDataAggregator.add_tick
  rw [if_neg hnv]

/-- Witness for C7 at a concrete input: a crossed tick (`ask = bid`)
against an empty aggregator. -/
theorem claim_C7_add_tick_rejects_invalid_witness :
    ((100 : ℤ) ≤ 100 ∨ (100 : ℤ) ≤ 0 ∨ (100 : ℤ) ≤ 0) ∧
    (MarketDataAggregator.mk [] [] 0 5).add_tick (MarketTick.mk 1 100 100 100 10)
      = MarketDataAggregator.mk [] [] 1 5 :=
  ⟨by decide,
   claim_C7_add_tick_rejects_invalid (MarketDataAggregator.mk [] [] 0 5)
     (MarketTick.mk 1 100 100 100 10) (by decide)⟩

/-! ## Spread percentage guard (C10) -/

/-- **C10** (implicit): `MarketTick::spread_pct` is total: the division by
the midpoint is guarded by `mid > 0`, so every tick whose midpoint is not
strictly positive (in particular ticks with zero or negative bid and ask)
yields `0.0` instead of a division by zero. -/
theorem claim_C10_spread_pct_total (t : MarketTick)
    (h : (Price.toDouble t.midpointValue).isPos = false) :
    t.spread_pct = Frac.ofInt 0 := by
  unfold MarketTick.spread_pct
  rw [if_neg (by rw [h]; exact Bool.false_ne_true)]

/-- Witness for C10 at a concrete input: `bid = -$2`, `ask = $1`, so the
midpoint is negative. -/
theorem claim_C10_spread_pct_total_witness :
    (Price.toDouble (MarketTick.mk 1 (-20000) 10000 0 0).midpointValue).isPos = false ∧
    (MarketTick.mk 1 (-20000) 10000 0 0).spread_pct = Frac.ofInt 0 :=
  ⟨by decide, claim_C10_spread_pct_total (MarketTick.mk 1 (-20000) 10000 0 0) (by decide)⟩

end HftStraddle
